import Mathlib

/-
Verification of the segmentation / rescaling / granularity pipeline of the
Google-Trends fetching script (Google_Trends_2.1.0.0.py).

Modelling conventions:
  * Calendar dates are modelled as day ordinals (`Nat` for the segmenter,
    whose inputs satisfy start ≤ end in every claim; `Int` for timestamp
    indices of fetched data, where pandas day-differences may be signed).
  * `timedelta(days = k)` addition is ordinal addition; Python's integer
    floor division `//` on the non-negative day spans of the claims is `Nat`
    division.
  * A pandas DataFrame of one fetched segment is a `SegmentFrame`: its index
    (list of timestamps) plus an association list of columns keyed by
    keyword.  `DataFrame.empty` (no rows) is `timestamps.isEmpty`.  Float
    arithmetic is modelled exactly over `ℚ`, so the spec's "within
    floating-point tolerance" becomes exact equality.
  * The external pytrends call is out of scope per the spec; `get_data`'s
    post-fetch processing is therefore modelled as a function of the list of
    raw fetched frames.
-/

/-- The `while current_start < end_date_obj` loop of `divide_timeframe_range`:
`current_end = min(current_start + delta, end_date_obj)`, the pair is
appended, and the next segment starts the day after the current one ends. -/
def segmentsLoop (end_date delta : Nat) (current_start : Nat) : List (Nat × Nat) :=
  if _h : current_start < end_date then
    (current_start, min (current_start + delta) end_date) ::
      segmentsLoop end_date delta (min (current_start + delta) end_date + 1)
  else
    []
termination_by end_date - current_start
decreasing_by
  omega

/-- Model of `divide_timeframe_range(start_date, end_date, granularity,
num_segments=None)`. Python truthiness of `num_segments` (both `None` and `0`
fall through to the granularity branches) is `num_segments.getD 0 ≠ 0`.
`delta` is `total_days // num_segments`, `269` for "d", `1889` for "w"; any
other granularity returns the whole range as one segment. -/
def divide_timeframe_range (start_date end_date : Nat) (granularity : String)
    (num_segments : Option Nat) : List (Nat × Nat) :=
  let total_days := end_date - start_date
  if num_segments.getD 0 ≠ 0 then
    segmentsLoop end_date (total_days / num_segments.getD 0) start_date
  else if granularity = "d" then
    segmentsLoop end_date 269 start_date
  else if granularity = "w" then
    segmentsLoop end_date 1889 start_date
  else
    [(start_date, end_date)]

/-- The set of calendar days (as an ordered list) spanned by one segment
`(s, e)`: the closed interval `[s, e]`. -/
def segDays (seg : Nat × Nat) : List Nat :=
  List.range' seg.1 (seg.2 - seg.1 + 1)

/-- The `delta` that `divide_timeframe_range` selects for a given total day
span, granularity and optional segment count (`none` when the unrecognized-
granularity fallback returns the whole range as one segment).  Used to state
the coverage property. -/
def chosenDelta (total_days : Nat) (granularity : String)
    (num_segments : Option Nat) : Option Nat :=
  if num_segments.getD 0 ≠ 0 then
    some (total_days / num_segments.getD 0)
  else if granularity = "d" then
    some 269
  else if granularity = "w" then
    some 1889
  else
    none

/-- Consecutive differences of a timestamp index:
`data.index.to_series().diff().dropna().dt.days`. -/
def dateDiffs : List Int → List Int
  | a :: b :: rest => (b - a) :: dateDiffs (b :: rest)
  | _ => []

/-- Model of `series.mode().iloc[0]` for an integer series: pandas returns
the modal values sorted ascending, so `iloc[0]` is the smallest value
attaining the maximal multiplicity; `none` models the `IndexError` raised on
an empty series. -/
def modeSmallest (l : List Int) : Option Int :=
  let maxCount := (l.map fun x => l.count x).foldr max 0
  (l.filter fun x => l.count x = maxCount).min?

/-- Model of `determine_overall_granularity_from_data`, as a function of the
DataFrame's timestamp index.  `none` models the `IndexError` from
`mode().iloc[0]` when no consecutive difference exists. -/
def determine_overall_granularity_from_data (index : List Int) : Option String :=
  match modeSmallest (dateDiffs index) with
  | none => none
  | some common_diff =>
    if common_diff = 1 then some "daily"
    else if common_diff ≤ 7 then some "weekly"
    else some "monthly"

/-- An evenly spaced timestamp index: `n` timestamps starting at `t` with a
uniform gap of `g` days. -/
def uniformSeries (t g : Int) : Nat → List Int
  | 0 => []
  | n + 1 => t :: uniformSeries (t + g) g n

section SegmenterLemmas

theorem segmentsLoop_eq_nil (end_date delta current_start : Nat)
    (h : ¬ current_start < end_date) :
    segmentsLoop end_date delta current_start = [] := by
  rw [segmentsLoop]
  simp [h]

theorem segmentsLoop_cons (end_date delta current_start : Nat)
    (h : current_start < end_date) :
    segmentsLoop end_date delta current_start =
      (current_start, min (current_start + delta) end_date) ::
        segmentsLoop end_date delta (min (current_start + delta) end_date + 1) := by
  rw [segmentsLoop]
  simp [h]

/-- Each produced segment has span at most `delta` days. -/
theorem segmentsLoop_span (end_date delta current_start : Nat) :
    ∀ seg ∈ segmentsLoop end_date delta current_start, seg.2 - seg.1 ≤ delta := by
  intro seg hseg
  by_cases h : current_start < end_date
  · rw [segmentsLoop_cons end_date delta current_start h] at hseg
    rcases List.mem_cons.mp hseg with hseg | hseg
    · subst hseg
      simp
      omega
    · exact segmentsLoop_span end_date delta _ seg hseg
  · rw [segmentsLoop_eq_nil end_date delta current_start h] at hseg
    cases hseg
termination_by end_date - current_start
decreasing_by
  omega

/-- The first segment produced (if any) starts at the running start. -/
theorem segmentsLoop_head (end_date delta current_start : Nat) :
    ∀ seg ∈ (segmentsLoop end_date delta current_start).head?, seg.1 = current_start := by
  intro seg hseg
  by_cases h : current_start < end_date
  · rw [segmentsLoop_cons end_date delta current_start h] at hseg
    simp at hseg
    rw [← hseg]
  · rw [segmentsLoop_eq_nil end_date delta current_start h] at hseg
    simp at hseg

/-- Adjacent produced segments are contiguous: each segment after the first
starts exactly one day after the previous one ends. -/
theorem segmentsLoop_chain (end_date delta current_start : Nat) :
    List.Chain' (fun a b : Nat × Nat => b.1 = a.2 + 1)
      (segmentsLoop end_date delta current_start) := by
  by_cases h : current_start < end_date
  · rw [segmentsLoop_cons end_date delta current_start h]
    refine List.chain'_cons'.mpr ⟨?_, ?_⟩
    · intro y hy
      have := segmentsLoop_head end_date delta (min (current_start + delta) end_date + 1) y hy
      simp [this]
    · exact segmentsLoop_chain end_date delta (min (current_start + delta) end_date + 1)
  · rw [segmentsLoop_eq_nil end_date delta current_start h]
    exact List.chain'_nil
termination_by end_date - current_start
decreasing_by
  omega

/-- Day coverage of the loop: starting from `current_start ≤ end_date`, the
produced segments cover the contiguous day range from `current_start` up to
`end_date`, except that the final day `end_date` is dropped exactly when the
remaining span is a multiple of `delta + 1` (in particular a zero span
produces no coverage at all). -/
theorem segmentsLoop_days (end_date delta : Nat) (current_start : Nat)
    (h : current_start ≤ end_date) :
    ((segmentsLoop end_date delta current_start).map segDays).flatten =
      if (end_date - current_start) % (delta + 1) = 0 then
        List.range' current_start (end_date - current_start)
      else
        List.range' current_start (end_date - current_start + 1) := by
  by_cases hlt : current_start < end_date
  · rw [segmentsLoop_cons end_date delta current_start hlt]
    by_cases hbig : end_date ≤ current_start + delta
    · have hmin : min (current_start + delta) end_date = end_date := by omega
      rw [hmin]
      rw [segmentsLoop_eq_nil end_date delta (end_date + 1) (by omega)]
      have hmod : (end_date - current_start) % (delta + 1) ≠ 0 := by
        have : end_date - current_start < delta + 1 := by omega
        rw [Nat.mod_eq_of_lt this]
        omega
      simp [hmod, segDays]
    · have hmin : min (current_start + delta) end_date = current_start + delta := by omega
      rw [hmin]
      have ih := segmentsLoop_days end_date delta (current_start + delta + 1) (by omega)
      have hmod : (end_date - current_start) % (delta + 1)
          = (end_date - (current_start + delta + 1)) % (delta + 1) := by
        have hsub : end_date - current_start
            = (end_date - (current_start + delta + 1)) + (delta + 1) := by omega
        rw [hsub, Nat.add_mod_right]
      rw [List.map_cons, List.flatten_cons, ih]
      have hseg : segDays (current_start, current_start + delta)
          = List.range' current_start (delta + 1) := by
        simp [segDays]
      rw [hseg]
      by_cases hzero : (end_date - (current_start + delta + 1)) % (delta + 1) = 0
      · rw [if_pos hzero, if_pos (by rw [hmod]; exact hzero)]
        have := List.range'_append current_start (delta + 1)
          (end_date - (current_start + delta + 1)) 1
        simp only [Nat.mul_one, Nat.one_mul] at this ⊢
        rw [show current_start + (delta + 1) = current_start + delta + 1 by omega] at this
        rw [this]
        congr 1
        omega
      · rw [if_neg hzero, if_neg (by rw [hmod]; exact hzero)]
        have := List.range'_append current_start (delta + 1)
          (end_date - (current_start + delta + 1) + 1) 1
        simp only [Nat.mul_one, Nat.one_mul] at this ⊢
        rw [show current_start + (delta + 1) = current_start + delta + 1 by omega] at this
        rw [this]
        congr 1
        omega
  · have heq : current_start = end_date := by omega
    rw [segmentsLoop_eq_nil end_date delta current_start hlt]
    subst heq
    simp
termination_by end_date - current_start
decreasing_by
  omega

/-- Number of segments produced by the loop. -/
theorem segmentsLoop_length (end_date delta current_start : Nat) :
    (segmentsLoop end_date delta current_start).length
      = ((end_date - current_start) + delta) / (delta + 1) := by
  by_cases hlt : current_start < end_date
  · rw [segmentsLoop_cons end_date delta current_start hlt]
    by_cases hbig : end_date ≤ current_start + delta
    · have hmin : min (current_start + delta) end_date = end_date := by omega
      rw [hmin, segmentsLoop_eq_nil end_date delta (end_date + 1) (by omega)]
      have h1 : 1 * (delta + 1) ≤ (end_date - current_start) + delta := by omega
      have h2 : (end_date - current_start) + delta < (1 + 1) * (delta + 1) := by omega
      simp [Nat.div_eq_of_lt_le h1 h2]
    · have hmin : min (current_start + delta) end_date = current_start + delta := by omega
      rw [hmin]
      have ih := segmentsLoop_length end_date delta (current_start + delta + 1)
      rw [List.length_cons, ih]
      have hsub : (end_date - current_start) + delta
          = ((end_date - (current_start + delta + 1)) + delta) + (delta + 1) := by omega
      rw [hsub, Nat.add_div_right _ (by omega)]
  · rw [segmentsLoop_eq_nil end_date delta current_start hlt]
    have : end_date - current_start = 0 := by omega
    rw [this]
    simp [Nat.div_eq_of_lt (by omega : delta < delta + 1)]
termination_by end_date - current_start
decreasing_by
  omega

end SegmenterLemmas

/-- One fetched segment's DataFrame: the timestamp index plus an association
list of columns keyed by keyword (a keyword may be absent from a fetched
result).  Values are interest scores, modelled exactly over `ℚ`. -/
structure SegmentFrame where
  timestamps : List Int
  cols : List (String × List ℚ)
deriving DecidableEq, Repr

/-- Column access `frame[keyword]` (after zero-filling, every requested
keyword is present, so the `[]` default is never reached on the paths the
code exercises). -/
def colVals (seg : SegmentFrame) (kw : String) : List ℚ :=
  (seg.cols.lookup kw).getD []

/-- The zero-fill step of `get_data`: for each requested keyword missing from
the fetched columns, `segment_data[keyword] = 0` appends a zero column over
the segment's index. -/
def zeroFill (keywords : List String) (seg : SegmentFrame) : SegmentFrame :=
  { seg with
    cols := seg.cols ++
      (keywords.filter fun k => (seg.cols.lookup k).isNone).map
        (fun k => (k, List.replicate seg.timestamps.length (0 : ℚ))) }

/-- The value `trends_data[i][keyword].iloc[0]` guarded by the
`if not trends_data[i].empty` check (`0` when the frame has no rows). -/
def meanCurrentStart (cur : SegmentFrame) (kw : String) : ℚ :=
  if cur.timestamps.isEmpty then 0 else (colVals cur kw).headD 0

/-- The value `trends_data[i-1][keyword].iloc[-1]` guarded by the
`if not trends_data[i-1].empty` check (`0` when the frame has no rows). -/
def meanPreviousEnd (prev : SegmentFrame) (kw : String) : ℚ :=
  if prev.timestamps.isEmpty then 0 else (colVals prev kw).getLastD 0

/-- The line `scale_factor = mean_current_start / mean_previous_end if
mean_previous_end != 0 else 1`. -/
def scaleFactor (prev cur : SegmentFrame) (kw : String) : ℚ :=
  if meanPreviousEnd prev kw ≠ 0 then
    meanCurrentStart cur kw / meanPreviousEnd prev kw
  else
    1

/-- The in-place column update `frame[kw] *= factor`. -/
def scaleCol (seg : SegmentFrame) (kw : String) (factor : ℚ) : SegmentFrame :=
  { seg with
    cols := seg.cols.map fun p =>
      if p.1 = kw then (p.1, p.2.map fun v => v * factor) else p }

/-- One iteration of the inner `for keyword in keywords` loop at boundary
`i`: compute the scale factor from the (still unmodified) current frame and
the previous frame, and rescale the previous frame's column in place. -/
def boundaryStep (kw : String) (prev cur : SegmentFrame) : SegmentFrame :=
  scaleCol prev kw (scaleFactor prev cur kw)

/-- The whole inner keyword loop at one boundary: the previous frame is
updated once per keyword, the current frame is only read. -/
def scaleSegPair (keywords : List String) (prev cur : SegmentFrame) : SegmentFrame :=
  keywords.foldl (fun p kw => boundaryStep kw p cur) prev

/-- The outer `for i in range(1, len(segments))` rescaling loop of
`get_data`: at step `i` the frame `trends_data[i-1]` (not yet modified by
earlier steps, which only touched frames to its left) is rescaled against
the original `trends_data[i]`; the last frame is never modified. -/
def scalePass (keywords : List String) : List SegmentFrame → List SegmentFrame
  | s1 :: s2 :: rest => scaleSegPair keywords s1 s2 :: scalePass keywords (s2 :: rest)
  | l => l

/-- The post-fetch processing of `get_data` as a function of the raw fetched
frames: zero-fill every requested keyword, run the rescaling pass, and
concatenate (`pd.concat`) the per-segment series of each requested keyword
in segment order. -/
def get_data_model (keywords : List String) (fetched : List SegmentFrame) : SegmentFrame :=
  let filled := fetched.map (zeroFill keywords)
  let scaled := scalePass keywords filled
  { timestamps := (scaled.map SegmentFrame.timestamps).flatten
    cols := keywords.map fun kw => (kw, (scaled.map fun s => colVals s kw).flatten) }

/-- Number of combined timestamps preceding segment `j`'s block in the
concatenated series. -/
def offsetBefore (fetched : List SegmentFrame) (j : Nat) : Nat :=
  ((fetched.take j).map fun s => s.timestamps.length).sum

section FrameLemmas

theorem lookup_map_pair (l : List String) (kw : String) (F : String → List ℚ) :
    (l.map fun k => (k, F k)).lookup kw = if kw ∈ l then some (F kw) else none := by
  induction l with
  | nil => simp
  | cons k rest ih =>
    by_cases hk : kw = k
    · subst hk
      simp [List.lookup_cons]
    · have hb : (kw == k) = false := by simp [hk]
      simp [List.lookup_cons, hb, hk, ih]

theorem zeroFill_timestamps (keywords : List String) (seg : SegmentFrame) :
    (zeroFill keywords seg).timestamps = seg.timestamps := rfl

/-- Zero-fill characterization: a requested keyword's column is the fetched
one when present, and an all-zero column over the segment's index when
absent. -/
theorem colVals_zeroFill (keywords : List String) (seg : SegmentFrame) (kw : String)
    (hkw : kw ∈ keywords) :
    colVals (zeroFill keywords seg) kw =
      match seg.cols.lookup kw with
      | some c => c
      | none => List.replicate seg.timestamps.length 0 := by
  unfold colVals zeroFill
  rw [List.lookup_append]
  cases h : seg.cols.lookup kw with
  | some c => simp
  | none =>
    have hmem : kw ∈ keywords.filter fun k => (seg.cols.lookup k).isNone := by
      simp [List.mem_filter, hkw, h]
    have : ((keywords.filter fun k => (seg.cols.lookup k).isNone).map
        (fun k => (k, List.replicate seg.timestamps.length (0 : ℚ)))).lookup kw
        = some (List.replicate seg.timestamps.length (0 : ℚ)) := by
      rw [lookup_map_pair]
      simp [hmem]
    simp [this]

theorem lookup_scaleMap (cols : List (String × List ℚ)) (kw0 kw : String) (f : ℚ) :
    (cols.map fun p => if p.1 = kw0 then (p.1, p.2.map fun v => v * f) else p).lookup kw
      = if kw0 = kw then (cols.lookup kw).map (fun c => c.map fun v => v * f)
        else cols.lookup kw := by
  induction cols with
  | nil => by_cases h : kw0 = kw <;> simp [h]
  | cons p rest ih =>
    rcases p with ⟨k, c⟩
    by_cases hk0 : k = kw0
    · subst hk0
      by_cases hkk : kw = k
      · subst hkk
        simp [List.lookup_cons]
      · have hb : (kw == k) = false := by simp [hkk]
        have hne : ¬ k = kw := fun h => hkk h.symm
        simp [List.lookup_cons, hb, hne, ih]
    · by_cases hkk : kw = k
      · subst hkk
        have hne : ¬ kw0 = kw := fun h => hk0 h.symm
        simp [List.lookup_cons, hk0, hne]
      · have hb : (kw == k) = false := by simp [hkk]
        simp [List.lookup_cons, hk0, hb, ih]

theorem scaleCol_timestamps (seg : SegmentFrame) (kw : String) (f : ℚ) :
    (scaleCol seg kw f).timestamps = seg.timestamps := rfl

theorem colVals_scaleCol (seg : SegmentFrame) (kw0 kw : String) (f : ℚ) :
    colVals (scaleCol seg kw0 f) kw =
      if kw0 = kw then (colVals seg kw).map (fun v => v * f) else colVals seg kw := by
  unfold colVals scaleCol
  simp only [lookup_scaleMap]
  by_cases h : kw0 = kw
  · simp only [if_pos h]
    cases seg.cols.lookup kw <;> simp
  · simp [if_neg h]

theorem boundaryStep_timestamps (kw : String) (prev cur : SegmentFrame) :
    (boundaryStep kw prev cur).timestamps = prev.timestamps := rfl

theorem scaleSegPair_timestamps (keywords : List String) (prev cur : SegmentFrame) :
    (scaleSegPair keywords prev cur).timestamps = prev.timestamps := by
  induction keywords generalizing prev with
  | nil => rfl
  | cons k rest ih =>
    unfold scaleSegPair at ih ⊢
    simp only [List.foldl_cons]
    rw [ih]
    rfl

theorem meanPreviousEnd_congr (p q : SegmentFrame) (kw : String)
    (hts : p.timestamps = q.timestamps) (hcol : colVals p kw = colVals q kw) :
    meanPreviousEnd p kw = meanPreviousEnd q kw := by
  simp [meanPreviousEnd, hts, hcol]

theorem scaleFactor_congr (p q cur : SegmentFrame) (kw : String)
    (hts : p.timestamps = q.timestamps) (hcol : colVals p kw = colVals q kw) :
    scaleFactor p cur kw = scaleFactor q cur kw := by
  simp [scaleFactor, meanPreviousEnd_congr p q kw hts hcol]

/-- A keyword not processed by the inner loop keeps its column unchanged. -/
theorem scaleSegPair_untouched (keywords : List String) (prev cur : SegmentFrame)
    (kw : String) :
    kw ∉ keywords → colVals (scaleSegPair keywords prev cur) kw = colVals prev kw := by
  induction keywords generalizing prev with
  | nil =>
    intro _
    rfl
  | cons k rest ih =>
    intro hkw
    have hkw' : kw ∉ rest := fun h => hkw (List.mem_cons_of_mem _ h)
    have hkne : ¬ k = kw := by
      intro h
      exact hkw (by simp [h])
    unfold scaleSegPair at ih ⊢
    simp only [List.foldl_cons]
    rw [ih (boundaryStep k prev cur) hkw']
    unfold boundaryStep
    rw [colVals_scaleCol]
    simp [hkne]

/-- With distinct keywords, the inner loop multiplies each keyword's column
of the previous frame by exactly one scalar: the scale factor computed from
the original previous frame and the (unmodified) current frame. -/
theorem colVals_scaleSegPair (keywords : List String) (prev cur : SegmentFrame)
    (kw : String) :
    keywords.Nodup → kw ∈ keywords →
    colVals (scaleSegPair keywords prev cur) kw
      = (colVals prev kw).map (fun v => v * scaleFactor prev cur kw) := by
  induction keywords generalizing prev with
  | nil =>
    intro _ hkw
    cases hkw
  | cons k rest ih =>
    intro hnd hkw
    have hndr : rest.Nodup := (List.nodup_cons.mp hnd).2
    have hknr : k ∉ rest := (List.nodup_cons.mp hnd).1
    unfold scaleSegPair at ih ⊢
    simp only [List.foldl_cons]
    rcases List.mem_cons.mp hkw with heq | hmem
    · subst heq
      rw [show (List.foldl (fun p kw => boundaryStep kw p cur) (boundaryStep kw prev cur) rest)
            = scaleSegPair rest (boundaryStep kw prev cur) cur from rfl]
      rw [scaleSegPair_untouched rest (boundaryStep kw prev cur) cur kw hknr]
      unfold boundaryStep
      rw [colVals_scaleCol]
      simp
    · have hkne : ¬ k = kw := by
        intro h
        exact hknr (h ▸ hmem)
      rw [ih (boundaryStep k prev cur) hndr hmem]
      have hcol : colVals (boundaryStep k prev cur) kw = colVals prev kw := by
        unfold boundaryStep
        rw [colVals_scaleCol]
        simp [hkne]
      rw [hcol, scaleFactor_congr (boundaryStep k prev cur) prev cur kw
        (boundaryStep_timestamps k prev cur) hcol]

/-- Column lengths survive the inner loop (for any keyword, any
multiplicity). -/
theorem scaleSegPair_col_length (keywords : List String) (prev cur : SegmentFrame)
    (kw : String) :
    (colVals (scaleSegPair keywords prev cur) kw).length = (colVals prev kw).length := by
  induction keywords generalizing prev with
  | nil => rfl
  | cons k rest ih =>
    unfold scaleSegPair at ih ⊢
    simp only [List.foldl_cons]
    rw [ih]
    unfold boundaryStep
    rw [colVals_scaleCol]
    by_cases h : k = kw <;> simp [h]

/-- An all-zero column stays all-zero through the inner loop. -/
theorem scaleSegPair_zero (keywords : List String) (prev cur : SegmentFrame)
    (kw : String) (n : Nat) (hz : colVals prev kw = List.replicate n 0) :
    colVals (scaleSegPair keywords prev cur) kw = List.replicate n 0 := by
  induction keywords generalizing prev with
  | nil => exact hz
  | cons k rest ih =>
    unfold scaleSegPair at ih ⊢
    simp only [List.foldl_cons]
    refine ih (boundaryStep k prev cur) ?_
    unfold boundaryStep
    rw [colVals_scaleCol]
    by_cases h : k = kw <;> simp [h, hz]

end FrameLemmas

section PassLemmas

theorem scalePass_nil (keywords : List String) : scalePass keywords [] = [] := rfl

theorem scalePass_single (keywords : List String) (s : SegmentFrame) :
    scalePass keywords [s] = [s] := rfl

theorem scalePass_cons_cons (keywords : List String) (s1 s2 : SegmentFrame)
    (rest : List SegmentFrame) :
    scalePass keywords (s1 :: s2 :: rest)
      = scaleSegPair keywords s1 s2 :: scalePass keywords (s2 :: rest) := rfl

theorem scalePass_length (keywords : List String) (l : List SegmentFrame) :
    (scalePass keywords l).length = l.length := by
  match l with
  | [] => rfl
  | [s] => rfl
  | s1 :: s2 :: rest =>
    rw [scalePass_cons_cons]
    simp only [List.length_cons]
    rw [show (scalePass keywords (s2 :: rest)).length = (s2 :: rest).length from
      scalePass_length keywords (s2 :: rest)]
    simp

/-- Elementwise description of the rescaling loop: every frame except the
last is replaced by its rescale against its original right neighbour; the
last frame is untouched. -/
theorem scalePass_getElem? (keywords : List String) (l : List SegmentFrame) (j : Nat) :
    (scalePass keywords l)[j]? = (l[j]?).map fun p =>
      match l[j + 1]? with
      | some c => scaleSegPair keywords p c
      | none => p := by
  match l with
  | [] => simp [scalePass_nil]
  | [s] =>
    rw [scalePass_single]
    match j with
    | 0 => simp
    | j + 1 => simp
  | s1 :: s2 :: rest =>
    rw [scalePass_cons_cons]
    match j with
    | 0 => simp
    | j + 1 =>
      simp only [List.getElem?_cons_succ]
      rw [scalePass_getElem? keywords (s2 :: rest) j]
      simp only [List.getElem?_cons_succ]

theorem scalePass_getLast? (keywords : List String) (l : List SegmentFrame) :
    (scalePass keywords l).getLast? = l.getLast? := by
  match l with
  | [] => rfl
  | s :: rest =>
    rw [List.getLast?_eq_getElem?, List.getLast?_eq_getElem?, scalePass_length,
      scalePass_getElem?]
    have hlen : (s :: rest).length - 1 + 1 = (s :: rest).length := by simp
    have hnone : (s :: rest)[(s :: rest).length - 1 + 1]? = none := by
      rw [hlen]
      simp
    rw [hnone]
    cases (s :: rest)[(s :: rest).length - 1]? <;> simp

end PassLemmas

section GranularityLemmas

theorem dateDiffs_nil : dateDiffs [] = [] := rfl

theorem dateDiffs_single (a : Int) : dateDiffs [a] = [] := rfl

theorem modeSmallest_nil : modeSmallest [] = none := rfl

/-- The differences of an evenly spaced index are `n - 1` copies of the gap. -/
theorem dateDiffs_uniformSeries (g : Int) (n : Nat) :
    ∀ t : Int, dateDiffs (uniformSeries t g n) = List.replicate (n - 1) g := by
  match n with
  | 0 =>
    intro t
    rfl
  | 1 =>
    intro t
    rfl
  | n + 2 =>
    intro t
    have ih := dateDiffs_uniformSeries g (n + 1) (t + g)
    show dateDiffs (t :: uniformSeries (t + g) g (n + 1)) = _
    rw [show uniformSeries (t + g) g (n + 1) = (t + g) :: uniformSeries (t + g + g) g n from rfl]
    rw [show dateDiffs (t :: (t + g) :: uniformSeries (t + g + g) g n)
      = (t + g - t) :: dateDiffs ((t + g) :: uniformSeries (t + g + g) g n) from rfl]
    rw [show (t + g) :: uniformSeries (t + g + g) g n = uniformSeries (t + g) g (n + 1) from rfl]
    rw [ih]
    have : t + g - t = g := by ring
    rw [this]
    rfl

theorem foldr_max_replicate (n c : Nat) :
    (List.replicate n c).foldr max 0 = if n = 0 then 0 else c := by
  induction n with
  | zero => rfl
  | succ n ih =>
    simp only [List.replicate_succ, List.foldr_cons, ih]
    by_cases h : n = 0 <;> simp [h]

theorem min?_replicate (n : Nat) (g : Int) :
    (List.replicate (n + 1) g).min? = some g := by
  induction n with
  | zero => rfl
  | succ n ih =>
    rw [List.replicate_succ]
    rw [List.min?_cons]
    rw [ih]
    simp

/-- A constant nonempty series has itself as its (unique) mode. -/
theorem modeSmallest_replicate (n : Nat) (g : Int) :
    modeSmallest (List.replicate (n + 1) g) = some g := by
  unfold modeSmallest
  have hcount : ∀ x ∈ List.replicate (n + 1) g,
      (List.replicate (n + 1) g).count x = n + 1 := by
    intro x hx
    rw [List.eq_of_mem_replicate hx]
    simp [List.count_replicate]
  have hmap : (List.replicate (n + 1) g).map (fun x => (List.replicate (n + 1) g).count x)
      = List.replicate (n + 1) (n + 1) := by
    rw [List.map_replicate]
    congr 1
    simp [List.count_replicate]
  rw [hmap, foldr_max_replicate]
  simp only [Nat.succ_ne_zero, if_false]
  have hfilter : (List.replicate (n + 1) g).filter
      (fun x => decide ((List.replicate (n + 1) g).count x = n + 1))
      = List.replicate (n + 1) g := by
    rw [List.filter_eq_self]
    intro x hx
    simp [hcount x hx]
  rw [hfilter, min?_replicate]

end GranularityLemmas

section FlattenIndexing

/-- Locating an element of a concatenation: position `t` inside block `j`
lands at the offset given by the total length of the earlier blocks. -/
theorem flatten_getElem_block {α : Type} (L : List (List α)) (j t : Nat) (l : List α)
    (hL : L[j]? = some l) (ht : t < l.length) :
    L.flatten[((L.take j).map List.length).sum + t]? = l[t]? := by
  induction L generalizing j with
  | nil => simp at hL
  | cons a rest ih =>
    match j with
    | 0 =>
      simp only [List.getElem?_cons_zero, Option.some.injEq] at hL
      subst hL
      simp only [List.take_zero, List.map_nil, List.sum_nil, Nat.zero_add,
        List.flatten_cons]
      exact List.getElem?_append_left ht
    | j + 1 =>
      simp only [List.getElem?_cons_succ] at hL
      simp only [List.take_succ_cons, List.map_cons, List.sum_cons, List.flatten_cons]
      rw [show a.length + ((rest.take j).map List.length).sum + t
        = a.length + (((rest.take j).map List.length).sum + t) by omega]
      rw [List.getElem?_append_right (by omega)]
      rw [show a.length + (((rest.take j).map List.length).sum + t) - a.length
        = ((rest.take j).map List.length).sum + t by omega]
      exact ih j hL

end FlattenIndexing

section SegmenterClaims

/-- Branch analysis of the segmenter: it runs the loop with the chosen
delta, or returns the whole range as one segment when no delta applies. -/
theorem divide_eq_branches (s e : Nat) (g : String) (ns : Option Nat) :
    divide_timeframe_range s e g ns =
      match chosenDelta (e - s) g ns with
      | some d => segmentsLoop e d s
      | none => [(s, e)] := by
  unfold divide_timeframe_range chosenDelta
  by_cases h1 : ns.getD 0 ≠ 0
  · simp [h1]
  · by_cases h2 : g = "d"
    · simp [h1, h2]
    · by_cases h3 : g = "w"
      · simp [h1, h2, h3]
      · simp [h1, h2, h3]

/-- Claim C3 counterexample: with granularity "d" and a span of 270 days the
final day is dropped — the union of the returned segments' day spans is not
the full interval, falsifying exact coverage. -/
theorem c3_counterexample :
    ((divide_timeframe_range 0 270 "d" none).map segDays).flatten
      ≠ List.range' 0 (270 + 1) := by
  have h : divide_timeframe_range 0 270 "d" none = [(0, 269)] := by
    rw [divide_eq_branches]
    show segmentsLoop 270 269 0 = [(0, 269)]
    rw [segmentsLoop_cons 270 269 0 (by omega), show min (0 + 269) 270 = 269 by omega,
      segmentsLoop_eq_nil 270 269 (269 + 1) (by omega)]
  rw [h]
  intro hcontra
  have hlen := congrArg List.length hcontra
  simp [segDays] at hlen

/-- Claim C3 (amended): for start ≤ end the segments are contiguous,
ascending and gap-free, and their day spans union to exactly [start, end],
EXCEPT that the final day is dropped when the chosen delta divides the span
as (end - start) ≡ 0 mod (delta + 1) — in particular start = end yields no
segments at all on the "d"/"w"/segment-count branches.  The unrecognized-
granularity branch always covers exactly. -/
theorem c3_coverage (s e : Nat) (g : String) (ns : Option Nat) (h : s ≤ e) :
    List.Chain' (fun a b : Nat × Nat => b.1 = a.2 + 1) (divide_timeframe_range s e g ns) ∧
    ((divide_timeframe_range s e g ns).map segDays).flatten =
      match chosenDelta (e - s) g ns with
      | none => List.range' s (e - s + 1)
      | some d =>
        if (e - s) % (d + 1) = 0 then List.range' s (e - s)
        else List.range' s (e - s + 1) := by
  rw [divide_eq_branches]
  cases hcd : chosenDelta (e - s) g ns with
  | none =>
    refine ⟨List.chain'_singleton _, ?_⟩
    simp [segDays]
  | some d =>
    exact ⟨segmentsLoop_chain e d s, segmentsLoop_days e d s h⟩

/-- Claim C3 witness: a concrete instantiation of the amended coverage
theorem where the span is not a multiple of delta + 1, so coverage is exact. -/
theorem c3_witness :
    0 ≤ 10 ∧
    (List.Chain' (fun a b : Nat × Nat => b.1 = a.2 + 1)
        (divide_timeframe_range 0 10 "d" none) ∧
      ((divide_timeframe_range 0 10 "d" none).map segDays).flatten
        = List.range' 0 (10 + 1)) := by
  have h := c3_coverage 0 10 "d" none (by omega)
  exact ⟨by omega, h.1, h.2⟩

/-- Claim C4 counterexample: with granularity "d" and start = end the
segmenter returns the empty list, not a single degenerate segment. -/
theorem c4_counterexample : (divide_timeframe_range 0 0 "d" none).length ≠ 1 := by
  rw [divide_eq_branches]
  show (segmentsLoop 0 269 0).length ≠ 1
  rw [segmentsLoop_eq_nil 0 269 0 (by omega)]
  simp

/-- Claim C4 (amended): with start = end and no segment count, the segmenter
returns a single degenerate zero-span segment only on the unrecognized-
granularity branch; for granularity "d" or "w" the loop body never runs and
the empty list is returned. -/
theorem c4_degenerate (s : Nat) (g : String) :
    divide_timeframe_range s s g none =
      if g = "d" ∨ g = "w" then [] else [(s, s)] := by
  rw [divide_eq_branches]
  unfold chosenDelta
  by_cases hd : g = "d"
  · simp [hd, segmentsLoop_eq_nil s 269 s (by omega)]
  · by_cases hw : g = "w"
    · simp [hd, hw, segmentsLoop_eq_nil s 1889 s (by omega)]
    · simp [hd, hw]

/-- Claim C5 counterexample: with a span of 5 days and an explicit segment
count of 4 the segmenter returns 3 segments, not 4. -/
theorem c5_counterexample : (divide_timeframe_range 0 5 "d" (some 4)).length ≠ 4 := by
  rw [divide_eq_branches]
  show (segmentsLoop 5 1 0).length ≠ 4
  rw [segmentsLoop_length]
  norm_num

/-- Claim C5 (amended): with an explicit segment count N ≥ 1 and
start ≤ end, the number of returned segments is
⌈T / (⌊T / N⌋ + 1)⌉ (written with natural division below) where T is the
day span; this never exceeds N but can fall short of it. -/
theorem c5_segment_count (s e n : Nat) (g : String) (_hse : s ≤ e) (hn : 1 ≤ n) :
    (divide_timeframe_range s e g (some n)).length
        = ((e - s) + (e - s) / n) / ((e - s) / n + 1) ∧
      (divide_timeframe_range s e g (some n)).length ≤ n := by
  have hcd : chosenDelta (e - s) g (some n) = some ((e - s) / n) := by
    unfold chosenDelta
    simp [show n ≠ 0 by omega]
  rw [divide_eq_branches, hcd]
  show (segmentsLoop e ((e - s) / n) s).length = _ ∧ (segmentsLoop e ((e - s) / n) s).length ≤ n
  rw [segmentsLoop_length]
  refine ⟨rfl, ?_⟩
  have hdm : n * ((e - s) / n) + (e - s) % n = e - s := Nat.div_add_mod (e - s) n
  have hmlt : (e - s) % n < n := Nat.mod_lt _ (by omega)
  have hexp : (n + 1) * ((e - s) / n + 1)
      = n * ((e - s) / n) + n + (e - s) / n + 1 := by ring
  have hlt : (e - s) + (e - s) / n < (n + 1) * ((e - s) / n + 1) := by
    rw [hexp]
    linarith
  exact Nat.lt_succ_iff.mp ((Nat.div_lt_iff_lt_mul (Nat.succ_pos _)).mpr hlt)

/-- Claim C5 witness: a concrete instantiation where the count comes out
exactly as the closed form says (and here equals N). -/
theorem c5_witness :
    0 ≤ 10 ∧ 1 ≤ 3 ∧
    ((divide_timeframe_range 0 10 "d" (some 3)).length
        = ((10 - 0) + (10 - 0) / 3) / ((10 - 0) / 3 + 1) ∧
      (divide_timeframe_range 0 10 "d" (some 3)).length ≤ 3) := by
  have h := c5_segment_count 0 10 3 "d" (by omega) (by omega)
  exact ⟨by omega, by omega, h⟩

/-- Claim C6: with no segment count, every segment produced for granularity
"d" spans at most 269 days, and every segment for "w" spans at most 1889
days. -/
theorem c6_segment_cap :
    (∀ (s e : Nat) (seg : Nat × Nat),
      seg ∈ divide_timeframe_range s e "d" none → seg.2 - seg.1 ≤ 269) ∧
    (∀ (s e : Nat) (seg : Nat × Nat),
      seg ∈ divide_timeframe_range s e "w" none → seg.2 - seg.1 ≤ 1889) := by
  constructor
  · intro s e seg hseg
    rw [divide_eq_branches, show chosenDelta (e - s) "d" none = some 269 from rfl] at hseg
    exact segmentsLoop_span e 269 s seg hseg
  · intro s e seg hseg
    rw [divide_eq_branches, show chosenDelta (e - s) "w" none = some 1889 from rfl] at hseg
    exact segmentsLoop_span e 1889 s seg hseg

/-- Claim C6 witness: the cap theorem applied to a concrete produced
segment. -/
theorem c6_witness :
    (0, 269) ∈ divide_timeframe_range 0 300 "d" none ∧
    ((0, 269) : Nat × Nat).2 - ((0, 269) : Nat × Nat).1 ≤ 269 := by
  have hmem : (0, 269) ∈ divide_timeframe_range 0 300 "d" none := by
    rw [divide_eq_branches]
    show (0, 269) ∈ segmentsLoop 300 269 0
    rw [segmentsLoop_cons 300 269 0 (by omega), show min (0 + 269) 300 = 269 by omega]
    exact List.mem_cons_self _ _
  exact ⟨hmem, c6_segment_cap.1 0 300 (0, 269) hmem⟩

end SegmenterClaims

section GranularityClaims

/-- Claim C8: for a series with at least 2 timestamps the classifier maps
the mode of the consecutive gaps (pandas' smallest modal value) through
the 1 / ≤ 7 / otherwise chain; in particular an evenly spaced series with
gap g (so gap 1 → "daily", gap 7 → "weekly", gap 30 → "monthly") is
classified by its own gap. -/
theorem c8_granularity_classification :
    (∀ (idx : List Int) (m : Int), 2 ≤ idx.length →
      modeSmallest (dateDiffs idx) = some m →
      determine_overall_granularity_from_data idx =
        some (if m = 1 then "daily" else if m ≤ 7 then "weekly" else "monthly")) ∧
    (∀ (t g : Int) (n : Nat), 2 ≤ n → 0 < g →
      determine_overall_granularity_from_data (uniformSeries t g n) =
        some (if g = 1 then "daily" else if g ≤ 7 then "weekly" else "monthly")) := by
  constructor
  · intro idx m _ hm
    unfold determine_overall_granularity_from_data
    rw [hm]
    by_cases h1 : m = 1 <;> by_cases h7 : m ≤ 7 <;> simp [h1, h7]
  · intro t g n hn _
    obtain ⟨k, hk⟩ : ∃ k, n - 1 = k + 1 := ⟨n - 2, by omega⟩
    have hm : modeSmallest (dateDiffs (uniformSeries t g n)) = some g := by
      rw [dateDiffs_uniformSeries g n t, hk, modeSmallest_replicate]
    unfold determine_overall_granularity_from_data
    rw [hm]
    by_cases h1 : g = 1 <;> by_cases h7 : g ≤ 7 <;> simp [h1, h7]

/-- Claim C8 witness: a 1-day-gap series is classified "daily" and a
7-day-gap series "weekly", by direct application of the classification
theorem. -/
theorem c8_witness :
    (2 ≤ ([0, 1, 2] : List Int).length ∧
      modeSmallest (dateDiffs [0, 1, 2]) = some 1 ∧
      determine_overall_granularity_from_data [0, 1, 2]
        = some (if (1 : Int) = 1 then "daily"
                else if (1 : Int) ≤ 7 then "weekly" else "monthly")) ∧
    (2 ≤ 3 ∧ (0 : Int) < 7 ∧
      determine_overall_granularity_from_data (uniformSeries 0 7 3)
        = some (if (7 : Int) = 1 then "daily"
                else if (7 : Int) ≤ 7 then "weekly" else "monthly")) := by
  refine ⟨⟨by norm_num, by decide, ?_⟩, by norm_num, by norm_num, ?_⟩
  · exact c8_granularity_classification.1 [0, 1, 2] 1 (by norm_num) (by decide)
  · exact c8_granularity_classification.2 0 7 3 (by norm_num) (by norm_num)

/-- Claim C9: a series with fewer than 2 timestamps yields no gap, so the
granularity inference fails (no label is produced — in the script this is
the IndexError from `mode().iloc[0]` on an empty series). -/
theorem c9_short_series (idx : List Int) (h : idx.length < 2) :
    determine_overall_granularity_from_data idx = none := by
  cases idx with
  | nil => rfl
  | cons a rest =>
    cases rest with
    | nil => rfl
    | cons b rest2 =>
      exfalso
      simp at h
      omega

/-- Claim C9 witness: the failure theorem applied to the empty series. -/
theorem c9_witness :
    ([] : List Int).length < 2 ∧ determine_overall_granularity_from_data [] = none :=
  ⟨by norm_num, c9_short_series [] (by norm_num)⟩

end GranularityClaims

section NormalizerClaims

/-- Claim C2 counterexample: the previous segment is nonempty with a nonzero
tail (5) while the current segment's frame is empty; the code sets head to 0
and computes scale = 0 / 5 = 0 — not the identity factor 1 that the claim
asserts for "either segment empty". -/
theorem c2_counterexample :
    (SegmentFrame.mk ([] : List Int) [("A", ([] : List ℚ))]).timestamps.isEmpty = true ∧
    scaleFactor ⟨[0], [("A", [5])]⟩ ⟨[], [("A", [])]⟩ "A" = 0 ∧
    (0 : ℚ) ≠ 1 := by
  refine ⟨rfl, ?_, by norm_num⟩
  norm_num [scaleFactor, meanCurrentStart, meanPreviousEnd, colVals, List.lookup,
    List.isEmpty]

/-- Claim C2 (amended): the scale factor defaults to 1 only when the
PREVIOUS segment's frame is empty (its tail reads as 0); when only the
CURRENT frame is empty and the previous tail is nonzero, the factor is
0 / tail = 0, which zeroes the previous segment instead of leaving it
unchanged. -/
theorem c2_empty_scale (prev cur : SegmentFrame) (kw : String) :
    (prev.timestamps.isEmpty = true → scaleFactor prev cur kw = 1) ∧
    (cur.timestamps.isEmpty = true → meanPreviousEnd prev kw ≠ 0 →
      scaleFactor prev cur kw = 0) := by
  constructor
  · intro hp
    unfold scaleFactor meanPreviousEnd
    rw [hp]
    simp
  · intro hc ht
    unfold scaleFactor
    rw [if_pos ht]
    unfold meanCurrentStart
    rw [hc]
    simp

/-- Claim C2 witness: both branches of the amended theorem at concrete
frames — empty previous frame gives factor 1; empty current frame with
nonzero previous tail gives factor 0. -/
theorem c2_witness :
    scaleFactor ⟨([] : List Int), []⟩ ⟨[0], [("A", [1])]⟩ "A" = 1 ∧
    scaleFactor ⟨[0], [("A", [5])]⟩ ⟨([] : List Int), []⟩ "A" = 0 := by
  constructor
  · exact (c2_empty_scale ⟨[], []⟩ ⟨[0], [("A", [1])]⟩ "A").1 rfl
  · refine (c2_empty_scale ⟨[0], [("A", [5])]⟩ ⟨[], []⟩ "A").2 rfl ?_
    norm_num [meanPreviousEnd, colVals, List.lookup, List.isEmpty]

/-- Claim C1 counterexample: three fetched segments for keyword "A".  After
the rescaling pass the combined column is [20, 100, 200, 100, 100] over
timestamps [0, 1, 2, 3, 4]: segment 0 ends at combined position 1 with
value 100, while segment 1 starts at position 2 with value 200 (its own
values were scaled by the NEXT boundary's factor after being used at this
one) — so adjacent values in the CombinedSeries at that boundary differ,
falsifying boundary continuity as stated. -/
theorem c1_counterexample :
    colVals (get_data_model ["A"]
        [⟨[0, 1], [("A", [10, 50])]⟩, ⟨[2, 3], [("A", [100, 50])]⟩,
          ⟨[4], [("A", [100])]⟩]) "A"
      = [20, 100, 200, 100, 100] ∧
    (get_data_model ["A"]
        [⟨[0, 1], [("A", [10, 50])]⟩, ⟨[2, 3], [("A", [100, 50])]⟩,
          ⟨[4], [("A", [100])]⟩]).timestamps
      = [0, 1, 2, 3, 4] ∧
    (100 : ℚ) ≠ 200 := by
  refine ⟨?_, ?_, by norm_num⟩ <;>
    norm_num [get_data_model, scalePass, scaleSegPair, boundaryStep, scaleCol, scaleFactor,
      meanCurrentStart, meanPreviousEnd, colVals, zeroFill, List.lookup, List.isEmpty]

/-- Claim C1 (amended): after the rescaling pass, for adjacent frames i and
i+1 and a requested keyword (distinct keywords), IF the previous frame's
pre-rescale tail value is nonzero THEN the rescaled segment i ends exactly
at segment i+1's pre-rescale head value (its originally fetched first
value) — continuity holds against the neighbour's original values, not
against the neighbour's own rescaled values in the CombinedSeries. -/
theorem c1_boundary_continuity (kws : List String) (kw : String) (i : Nat)
    (filled : List SegmentFrame) (prev cur : SegmentFrame)
    (hnd : kws.Nodup) (hkw : kw ∈ kws)
    (hp : filled[i]? = some prev) (hc : filled[i + 1]? = some cur)
    (ht : meanPreviousEnd prev kw ≠ 0) :
    ∃ seg, (scalePass kws filled)[i]? = some seg ∧
      (colVals seg kw).getLast? = some (meanCurrentStart cur kw) := by
  refine ⟨scaleSegPair kws prev cur, ?_, ?_⟩
  · rw [scalePass_getElem?]
    simp only [hp, hc, Option.map_some']
  · rw [colVals_scaleSegPair kws prev cur kw hnd hkw, List.getLast?_map]
    have he : prev.timestamps.isEmpty = false := by
      by_cases h : prev.timestamps.isEmpty = true
      · exfalso
        apply ht
        unfold meanPreviousEnd
        rw [h]
        simp
      · simpa using h
    have hm : meanPreviousEnd prev kw = (colVals prev kw).getLastD 0 := by
      unfold meanPreviousEnd
      rw [he]
      simp
    cases hL : (colVals prev kw).getLast? with
    | none =>
      exfalso
      apply ht
      rw [hm, List.getLastD_eq_getLast?, hL]
      rfl
    | some v =>
      have hv : meanPreviousEnd prev kw = v := by
        rw [hm, List.getLastD_eq_getLast?, hL]
        rfl
      have hvne : v ≠ 0 := hv ▸ ht
      simp only [Option.map_some']
      unfold scaleFactor
      rw [if_pos ht, hv, mul_comm, div_mul_cancel₀ _ hvne]

/-- Claim C1 witness: a two-segment instance with nonzero previous tail —
the rescaled first segment ends exactly at the second segment's fetched
head value 30. -/
theorem c1_witness :
    (["A"] : List String).Nodup ∧ "A" ∈ (["A"] : List String) ∧
    meanPreviousEnd (⟨[0], [("A", [50])]⟩ : SegmentFrame) "A" ≠ 0 ∧
    ∃ seg, (scalePass ["A"] [⟨[0], [("A", [50])]⟩, ⟨[1], [("A", [30])]⟩])[0]? = some seg ∧
      (colVals seg "A").getLast?
        = some (meanCurrentStart (⟨[1], [("A", [30])]⟩ : SegmentFrame) "A") := by
  have hne : meanPreviousEnd (⟨[0], [("A", [50])]⟩ : SegmentFrame) "A" ≠ 0 := by
    norm_num [meanPreviousEnd, colVals, List.lookup, List.isEmpty]
  refine ⟨by decide, by decide, hne, ?_⟩
  exact c1_boundary_continuity ["A"] "A" 0
    [⟨[0], [("A", [50])]⟩, ⟨[1], [("A", [30])]⟩]
    ⟨[0], [("A", [50])]⟩ ⟨[1], [("A", [30])]⟩ (by decide) (by decide) rfl rfl hne

end NormalizerClaims

section FrameEffectClaim

/-- Claim C10: frame conditions of the rescaling loop.  The pass preserves
the number of frames, never modifies the last frame, and replaces each
other frame by a per-keyword single-scalar rescale: every requested
keyword's column is multiplied (once) by the scale factor computed from
the frame's own original values and its immediate right neighbour's
original values, while columns of keywords outside the request — and the
timestamp index — are untouched. -/
theorem c10_frame_effect (kws : List String) (l : List SegmentFrame)
    (hnd : kws.Nodup) :
    (scalePass kws l).length = l.length ∧
    (scalePass kws l).getLast? = l.getLast? ∧
    (∀ (i : Nat) (prev cur : SegmentFrame), l[i]? = some prev → l[i + 1]? = some cur →
      ∃ seg, (scalePass kws l)[i]? = some seg ∧
        seg.timestamps = prev.timestamps ∧
        (∀ kw ∈ kws, colVals seg kw
          = (colVals prev kw).map (fun v => v * scaleFactor prev cur kw)) ∧
        (∀ kw, kw ∉ kws → colVals seg kw = colVals prev kw)) := by
  refine ⟨scalePass_length kws l, scalePass_getLast? kws l, ?_⟩
  intro i prev cur hp hc
  refine ⟨scaleSegPair kws prev cur, ?_, scaleSegPair_timestamps kws prev cur, ?_, ?_⟩
  · rw [scalePass_getElem?]
    simp only [hp, hc, Option.map_some']
  · intro kw hkw
    exact colVals_scaleSegPair kws prev cur kw hnd hkw
  · intro kw hkw
    exact scaleSegPair_untouched kws prev cur kw hkw

/-- Claim C10 witness: the frame-effect theorem applied to a concrete
two-frame run with one keyword. -/
theorem c10_witness :
    (["A"] : List String).Nodup ∧
    ((scalePass ["A"] [⟨[0], [("A", [2])]⟩, ⟨[1], [("A", [3])]⟩]).length
        = ([⟨[0], [("A", [2])]⟩, ⟨[1], [("A", [3])]⟩] : List SegmentFrame).length ∧
      (scalePass ["A"] [⟨[0], [("A", [2])]⟩, ⟨[1], [("A", [3])]⟩]).getLast?
        = ([⟨[0], [("A", [2])]⟩, ⟨[1], [("A", [3])]⟩] : List SegmentFrame).getLast? ∧
      (∀ (i : Nat) (prev cur : SegmentFrame),
        ([⟨[0], [("A", [2])]⟩, ⟨[1], [("A", [3])]⟩] : List SegmentFrame)[i]? = some prev →
        ([⟨[0], [("A", [2])]⟩, ⟨[1], [("A", [3])]⟩] : List SegmentFrame)[i + 1]? = some cur →
        ∃ seg, (scalePass ["A"] [⟨[0], [("A", [2])]⟩, ⟨[1], [("A", [3])]⟩])[i]? = some seg ∧
          seg.timestamps = prev.timestamps ∧
          (∀ kw ∈ ["A"], colVals seg kw
            = (colVals prev kw).map (fun v => v * scaleFactor prev cur kw)) ∧
          (∀ kw, kw ∉ ["A"] → colVals seg kw = colVals prev kw))) :=
  ⟨by decide, c10_frame_effect ["A"] [⟨[0], [("A", [2])]⟩, ⟨[1], [("A", [3])]⟩] (by decide)⟩

end FrameEffectClaim

section ZeroFillClaim

theorem mem_of_lookup_eq_some {l : List (String × List ℚ)} {k : String} {v : List ℚ}
    (h : l.lookup k = some v) : (k, v) ∈ l := by
  rcases List.lookup_eq_some_iff.mp h with ⟨l₁, l₂, heq, -⟩
  rw [heq]
  simp

theorem colVals_zeroFill_length (kws : List String) (seg : SegmentFrame) (kw : String)
    (hkw : kw ∈ kws)
    (hwf : ∀ p ∈ seg.cols, p.2.length = seg.timestamps.length) :
    (colVals (zeroFill kws seg) kw).length = seg.timestamps.length := by
  rw [colVals_zeroFill kws seg kw hkw]
  cases h : seg.cols.lookup kw with
  | none => simp
  | some c => exact hwf (kw, c) (mem_of_lookup_eq_some h)

/-- After zero-filling and rescaling, the block of a segment whose fetched
result lacked the keyword is still an all-zero column over that segment's
own timestamps. -/
theorem scaled_block_zero (kws : List String) (raw : List SegmentFrame) (kw : String)
    (j : Nat) (segj : SegmentFrame) (hkw : kw ∈ kws)
    (hj : raw[j]? = some segj) (habs : segj.cols.lookup kw = none) :
    ∃ sj, (scalePass kws (raw.map (zeroFill kws)))[j]? = some sj ∧
      colVals sj kw = List.replicate segj.timestamps.length 0 ∧
      sj.timestamps = segj.timestamps := by
  have hfj : (raw.map (zeroFill kws))[j]? = some (zeroFill kws segj) := by
    rw [List.getElem?_map, hj]
    rfl
  have hz : colVals (zeroFill kws segj) kw = List.replicate segj.timestamps.length 0 := by
    rw [colVals_zeroFill kws segj kw hkw, habs]
  rw [scalePass_getElem?]
  simp only [hfj, Option.map_some']
  cases hnext : (raw.map (zeroFill kws))[j + 1]? with
  | none => exact ⟨zeroFill kws segj, rfl, hz, rfl⟩
  | some c =>
    exact ⟨scaleSegPair kws (zeroFill kws segj) c, rfl,
      scaleSegPair_zero kws (zeroFill kws segj) c kw _ hz,
      (scaleSegPair_timestamps kws (zeroFill kws segj) c).trans rfl⟩

/-- The rescaling pass preserves every segment's timestamp index. -/
theorem scaled_map_timestamps (kws : List String) (raw : List SegmentFrame) :
    (scalePass kws (raw.map (zeroFill kws))).map SegmentFrame.timestamps
      = raw.map SegmentFrame.timestamps := by
  apply List.ext_getElem?
  intro i
  rw [List.getElem?_map, List.getElem?_map, scalePass_getElem?]
  cases hi : raw[i]? with
  | none =>
    have h0 : (raw.map (zeroFill kws))[i]? = none := by
      rw [List.getElem?_map, hi]
      rfl
    rw [h0]
    rfl
  | some si =>
    have hfi : (raw.map (zeroFill kws))[i]? = some (zeroFill kws si) := by
      rw [List.getElem?_map, hi]
      rfl
    rw [hfi]
    simp only [Option.map_some', Option.some.injEq]
    cases hnext : (raw.map (zeroFill kws))[i + 1]? with
    | none => rfl
    | some c => exact (scaleSegPair_timestamps kws (zeroFill kws si) c).trans rfl

/-- For a requested keyword, every rescaled segment's column has exactly as
many values as that segment has timestamps. -/
theorem scaled_map_col_length (kws : List String) (raw : List SegmentFrame) (kw : String)
    (hkw : kw ∈ kws)
    (hwf : ∀ seg ∈ raw, ∀ p ∈ seg.cols, p.2.length = seg.timestamps.length) :
    ((scalePass kws (raw.map (zeroFill kws))).map fun s => (colVals s kw).length)
      = raw.map fun s => s.timestamps.length := by
  apply List.ext_getElem?
  intro i
  rw [List.getElem?_map, List.getElem?_map, scalePass_getElem?]
  cases hi : raw[i]? with
  | none =>
    have h0 : (raw.map (zeroFill kws))[i]? = none := by
      rw [List.getElem?_map, hi]
      rfl
    rw [h0]
    rfl
  | some si =>
    have hfi : (raw.map (zeroFill kws))[i]? = some (zeroFill kws si) := by
      rw [List.getElem?_map, hi]
      rfl
    have hlen : (colVals (zeroFill kws si) kw).length = si.timestamps.length :=
      colVals_zeroFill_length kws si kw hkw (hwf si (List.getElem?_mem hi))
    rw [hfi]
    simp only [Option.map_some', Option.some.injEq]
    cases hnext : (raw.map (zeroFill kws))[i + 1]? with
    | none => exact hlen
    | some c => exact (scaleSegPair_col_length kws (zeroFill kws si) c kw).trans hlen

theorem colVals_get_data_model (kws : List String) (raw : List SegmentFrame) (kw : String)
    (hkw : kw ∈ kws) :
    colVals (get_data_model kws raw) kw
      = ((scalePass kws (raw.map (zeroFill kws))).map fun s => colVals s kw).flatten := by
  show (((get_data_model kws raw).cols).lookup kw).getD [] = _
  rw [show (get_data_model kws raw).cols
      = kws.map (fun k =>
          (k, ((scalePass kws (raw.map (zeroFill kws))).map fun s => colVals s k).flatten))
    from rfl]
  rw [lookup_map_pair kws kw
    (fun k => ((scalePass kws (raw.map (zeroFill kws))).map fun s => colVals s k).flatten)]
  simp [hkw]

theorem timestamps_get_data_model (kws : List String) (raw : List SegmentFrame) :
    (get_data_model kws raw).timestamps
      = ((scalePass kws (raw.map (zeroFill kws))).map SegmentFrame.timestamps).flatten := rfl

end ZeroFillClaim

/-- Claim C7: if a requested keyword is absent from a segment's fetched
columns, the CombinedSeries produced by the (zero-fill; rescale;
concatenate) pipeline carries that keyword with value 0 at every one of
that segment's timestamps — the zero-fill survives the rescale pass, since
scaling multiplies the zero column pointwise. -/
theorem c7_zero_fill (kws : List String) (raw : List SegmentFrame) (kw : String)
    (j : Nat) (segj : SegmentFrame)
    (hkw : kw ∈ kws) (hj : raw[j]? = some segj)
    (habs : segj.cols.lookup kw = none)
    (hwf : ∀ seg ∈ raw, ∀ p ∈ seg.cols, p.2.length = seg.timestamps.length) :
    ∀ t, t < segj.timestamps.length →
      (colVals (get_data_model kws raw) kw)[offsetBefore raw j + t]? = some 0 ∧
      (get_data_model kws raw).timestamps[offsetBefore raw j + t]?
        = segj.timestamps[t]? := by
  intro t ht
  obtain ⟨sj, hsj, hzero, hts⟩ := scaled_block_zero kws raw kw j segj hkw hj habs
  constructor
  · rw [colVals_get_data_model kws raw kw hkw]
    have hchunk : ((scalePass kws (raw.map (zeroFill kws))).map fun s => colVals s kw)[j]?
        = some (List.replicate segj.timestamps.length 0) := by
      rw [List.getElem?_map, hsj]
      simp [hzero]
    have hofs : ((((scalePass kws (raw.map (zeroFill kws))).map
          fun s => colVals s kw).take j).map List.length).sum
        = offsetBefore raw j := by
      rw [List.map_take, List.map_map]
      rw [show (List.length ∘ fun s => colVals s kw)
          = fun s => (colVals s kw).length from rfl]
      rw [scaled_map_col_length kws raw kw hkw hwf]
      unfold offsetBefore
      rw [List.map_take]
    rw [← hofs]
    rw [flatten_getElem_block ((scalePass kws (raw.map (zeroFill kws))).map
        fun s => colVals s kw) j t
      (List.replicate segj.timestamps.length 0) hchunk (by simpa using ht)]
    simp [ht]
  · rw [timestamps_get_data_model kws raw, scaled_map_timestamps kws raw]
    have hblock : (raw.map SegmentFrame.timestamps)[j]? = some segj.timestamps := by
      rw [List.getElem?_map, hj]
      rfl
    have hofs : (((raw.map SegmentFrame.timestamps).take j).map List.length).sum
        = offsetBefore raw j := by
      rw [List.map_take, List.map_map]
      unfold offsetBefore
      rw [List.map_take]
      rfl
    rw [← hofs]
    exact flatten_getElem_block (raw.map SegmentFrame.timestamps) j t
      segj.timestamps hblock ht

/-- Claim C7 witness: keyword "B" is absent from the only fetched segment;
the combined series carries "B" as 0 at both of that segment's timestamps. -/
theorem c7_witness :
    "B" ∈ (["A", "B"] : List String) ∧
    ([⟨[0, 1], [("A", [3, 4])]⟩] : List SegmentFrame)[0]?
      = some ⟨[0, 1], [("A", [3, 4])]⟩ ∧
    (⟨[0, 1], [("A", [3, 4])]⟩ : SegmentFrame).cols.lookup "B" = none ∧
    (∀ t, t < (⟨[0, 1], [("A", [3, 4])]⟩ : SegmentFrame).timestamps.length →
      (colVals (get_data_model ["A", "B"] [⟨[0, 1], [("A", [3, 4])]⟩])
          "B")[offsetBefore [⟨[0, 1], [("A", [3, 4])]⟩] 0 + t]? = some 0 ∧
      (get_data_model ["A", "B"]
          [⟨[0, 1], [("A", [3, 4])]⟩]).timestamps[offsetBefore
            [⟨[0, 1], [("A", [3, 4])]⟩] 0 + t]?
        = (⟨[0, 1], [("A", [3, 4])]⟩ : SegmentFrame).timestamps[t]?) := by
  refine ⟨by decide, rfl, by decide, ?_⟩
  exact c7_zero_fill ["A", "B"] [⟨[0, 1], [("A", [3, 4])]⟩] "B" 0
    ⟨[0, 1], [("A", [3, 4])]⟩ (by decide) rfl (by decide) (by decide)
